import Mathlib

/-!
Shallow embedding of `partner_multi_relation_tabs/models/res_partner.py`.

The file under verification extends the `res.partner` model with
dynamically attached tab fields:

* a process-wide revision cache (`_tab_modification_sequence`, a class
  attribute initialised to `0`) compared against the sequence supplied by
  the `res.partner.tab.sequence` model (`_need_tab_update`);
* a synchroniser (`_update_tab_fields`) that, on a revision mismatch,
  attaches the field pair of every tab whose relation field name is absent;
* a field deriver (`add_field`) building a computed Boolean visibility
  field and a filtered One2many relation field per tab;
* a view composer (`_add_tab_pages`) appending one page per tab after the
  last pre-existing page of the form and registering extra field names;
* entry points `browse` (reconciles before materialising records) and
  `fields_view_get` (composes the form view and merges field metadata).

Objects provided by other models of the addon (`res.partner.tab` records,
their derived names `get_fieldname` / `get_visible_fieldname`, the page
produced by `create_page`, and the sequence value) are abstracted as data:
this file only consumes them.  Schema registries (`_fields`) are modelled
as association lists keyed by field name, with `setField` replacing an
existing binding in place, matching Python dict assignment.
-/

namespace PartnerTabs

/-- The `res.partner.tab` browse record backing a tab (`tab.tab_record`). -/
structure TabRecord where
  id : Nat
  name : String
deriving DecidableEq

/-- A notebook page element of the form view (label plus the names of the
field elements it contains). -/
structure Page where
  label : String
  pfields : List String
deriving DecidableEq

/-- A tab as consumed by `res_partner.py`: the backing record plus the
results of the (externally defined) methods `get_fieldname`,
`get_visible_fieldname` and `create_page`. -/
structure Tab where
  tab_record : TabRecord
  fieldname : String
  visible_fieldname : String
  page : Page
deriving DecidableEq

/-- `fields.Boolean(compute=...)` descriptor. -/
structure BooleanField where
  compute : Option String
deriving DecidableEq

/-- `fields.One2many(...)` descriptor as built in `add_field`:
comodel, inverse field, the single `(field, '=', value)` domain term,
the `active_test` context flag and the display string. -/
structure One2manyField where
  comodel_name : String
  inverse_name : String
  domain_field : String
  domain_value : Nat
  context_active_test : Bool
  string : String
deriving DecidableEq

/-- A field descriptor registered in the model's `_fields` registry. -/
inductive FieldDef
  | boolean : BooleanField → FieldDef
  | one2many : One2manyField → FieldDef
deriving DecidableEq

/-- An Odoo field is directly writable unless it is computed without an
inverse; the Boolean fields built by `add_field` declare a compute method
and no inverse, so they are read-only for direct writes. -/
def FieldDef.directlyWritable : FieldDef → Bool
  | .boolean b => b.compute.isNone
  | .one2many _ => true

/-- The model's `_fields` registry: an association list keyed by name. -/
abbrev Schema := List (String × FieldDef)

/-- `name in self._fields` (dict membership by key). -/
def hasField : Schema → String → Bool
  | [], _ => false
  | (m, _) :: rest, n => if m = n then true else hasField rest n

/-- `self._fields[name]` lookup. -/
def lookupField : Schema → String → Option FieldDef
  | [], _ => none
  | (m, g) :: rest, n => if m = n then some g else lookupField rest n

/-- `self._fields[name] = field`: dict assignment, replacing an existing
binding in place or appending a new one. -/
def setField : Schema → String → FieldDef → Schema
  | [], n, f => [(n, f)]
  | (m, g) :: rest, n, f =>
      if m = n then (n, f) :: rest else (m, g) :: setField rest n f

/-- The `@api.depends` declaration on `_compute_tabs_visibility`. -/
def tabs_visibility_depends : List String := ["is_company", "category_id"]

/-- `add_field(tab)` from the source: registers the computed Boolean
visibility field under `tab.get_visible_fieldname()` and the filtered
One2many relation field under `tab.get_fieldname()`.  As its docstring
states, it replaces existing fields (dict assignment, no presence check). -/
def add_field (fs : Schema) (tab : Tab) : Schema :=
  let visible_field := FieldDef.boolean ⟨some "_compute_tabs_visibility"⟩
  let fs1 := setField fs tab.visible_fieldname visible_field
  let tab_field := FieldDef.one2many
    ⟨"res.partner.relation.all", "this_partner_id",
      "tab_id", tab.tab_record.id, false, tab.tab_record.name⟩
  setField fs1 tab.fieldname tab_field

/-- Process-wide model state: the `_fields` registry plus the class-level
`_tab_modification_sequence` cache. -/
structure ModelState where
  fields : Schema
  tab_modification_sequence : Nat
deriving DecidableEq

/-- The class attribute initialiser `_tab_modification_sequence = 0`. -/
def init_tab_modification_sequence : Nat := 0

/-- Ambient environment: current value of the
`res.partner.tab.sequence` counter and the tabs returned by
`res.partner.tab.get_tabs()`. -/
structure Env where
  sequence : Nat
  tabs : List Tab

/-- `_need_tab_update`: compares the source sequence with the cached one;
on mismatch it already stores the new sequence (via
`_set_tab_modification_sequence`) before reporting that an update is
needed. -/
def _need_tab_update (sequence : Nat) (st : ModelState) : Bool × ModelState :=
  if sequence = st.tab_modification_sequence then (false, st)
  else (true, { st with tab_modification_sequence := sequence })

/-- The field-attachment loop of `_update_tab_fields`: for each tab whose
relation field name is absent from the registry, attach its pair. -/
def syncFields (tabs : List Tab) (fs : Schema) : Schema :=
  tabs.foldl (fun acc tab => if hasField acc tab.fieldname then acc else add_field acc tab) fs

/-- `_update_tab_fields` (the reconcile operation): return unchanged when
`_need_tab_update` reports no change, otherwise run the attachment loop. -/
def _update_tab_fields (env : Env) (st : ModelState) : ModelState :=
  let r := _need_tab_update env.sequence st
  if r.1 then { r.2 with fields := syncFields env.tabs r.2.fields } else r.2

/-- Environment for the fallible variant: fetching the tab declarations
(`self._get_tabs()`) may raise, modelled by `none`. -/
structure EnvE where
  sequence : Nat
  tabsResult : Option (List Tab)

/-- `_update_tab_fields` with a fallible declaration fetch.  Returns the
persistent model state together with a success flag: when `_get_tabs()`
raises, the exception propagates (`false`) but the class-level cache
mutation performed inside `_need_tab_update` has already happened. -/
def updateTabFieldsE (env : EnvE) (st : ModelState) : ModelState × Bool :=
  let r := _need_tab_update env.sequence st
  if r.1 then
    match env.tabsResult with
    | none => (r.2, false)
    | some tabs => ({ r.2 with fields := syncFields tabs r.2.fields }, true)
  else (r.2, true)

/-- A form view: its notebook pages in document order, and the field
elements outside pages as `(name, invisible)` pairs (the composer appends
invisible ones at the root). -/
structure View where
  pages : List Page
  fieldNodes : List (String × Bool)
deriving DecidableEq

/-- `view.xpath('//field[@name=n]')` non-emptiness: a field element named
`n` anywhere in the tree. -/
def viewHasField (v : View) (n : String) : Bool :=
  v.fieldNodes.any (fun p => p.1 == n) || v.pages.any (fun pg => pg.pfields.any (fun m => m == n))

/-- `add_invisible_extra_field`: append an invisible field element to the
view root and record its name in the extra-fields list. -/
def add_invisible_extra_field (v : View) (ef : List String) (n : String) :
    View × List String :=
  ({ v with fieldNodes := v.fieldNodes ++ [(n, true)] }, ef ++ [n])

/-- The per-tab loop of `_add_tab_pages`: attach the tab's fields
(unconditional `add_field`), append the invisible visibility field,
record both field names, and insert the tab's page right after the page
at `lastIdx` (`last_page.addnext`), which becomes the new `last_page`. -/
def addPagesLoop : List Tab → Schema → View → List String → Nat →
    Schema × View × List String
  | [], fs, v, ef, _ => (fs, v, ef)
  | tab :: rest, fs, v, ef, lastIdx =>
      let fs1 := add_field fs tab
      let p1 := add_invisible_extra_field v ef tab.visible_fieldname
      let ef2 := p1.2 ++ [tab.fieldname]
      let v2 := { p1.1 with
        pages := p1.1.pages.take (lastIdx + 1) ++ [tab.page] ++ p1.1.pages.drop (lastIdx + 1) }
      addPagesLoop rest fs1 v2 ef2 (lastIdx + 1)

/-- `_add_tab_pages(view)`: no-op on views without pages; otherwise ensure
an (invisible) `id` field element exists, then run the per-tab loop
starting after the last pre-existing page.  Returns the mutated schema,
the mutated view and the extra-fields list. -/
def _add_tab_pages (tabs : List Tab) (fs : Schema) (v : View) :
    Schema × View × List String :=
  if v.pages.isEmpty then (fs, v, [])
  else
    let p0 := if viewHasField v "id" then (v, ([] : List String))
              else add_invisible_extra_field v [] "id"
    addPagesLoop tabs fs p0.1 p0.2 (v.pages.length - 1)

/-- The result of `fields_view_get`: the view architecture and the keys of
the accompanying `fields` metadata map. -/
structure FVGResult where
  arch : View
  fieldsMeta : List String
deriving DecidableEq

/-- `fields_view_get`: the super result is returned verbatim unless the
request is for a form view outside `check_view_ids` validation mode; in
the composing branch `_add_tab_pages` runs and each extra field name has
its metadata merged into the result's `fields` map.  Note that the body
never consults the revision sequence nor calls `_update_tab_fields`. -/
def fields_view_get (env : Env) (st : ModelState) (view_type : String)
    (check_view_ids : Bool) (result : FVGResult) : FVGResult × ModelState :=
  if view_type ≠ "form" ∨ check_view_ids = true then (result, st)
  else
    let r := _add_tab_pages env.tabs st.fields result.arch
    ({ arch := r.2.1, fieldsMeta := result.fieldsMeta ++ r.2.2 },
      { st with fields := r.1 })

/-- `browse`: reconcile (`_update_tab_fields`) first, then materialise the
recordset via the superclass implementation, abstracted as `superBrowse`
acting on the reconciled model state. -/
def browse {α : Type} (superBrowse : ModelState → Option Nat → α)
    (env : Env) (st : ModelState) (arg : Option Nat) : α × ModelState :=
  let st1 := _update_tab_fields env st
  (superBrowse st1 arg, st1)

/-! ### Association-list lemmas about the schema registry -/

theorem lookup_setField_self (fs : Schema) (n : String) (f : FieldDef) :
    lookupField (setField fs n f) n = some f := by
  induction fs with
  | nil => simp [setField, lookupField]
  | cons hd tl ih =>
      obtain ⟨m, g⟩ := hd
      by_cases h : m = n <;> simp [setField, lookupField, h, ih]

theorem lookup_setField_other (fs : Schema) (n m : String) (f : FieldDef)
    (h : m ≠ n) : lookupField (setField fs n f) m = lookupField fs m := by
  have hnm : n ≠ m := Ne.symm h
  induction fs with
  | nil => simp [setField, lookupField, hnm]
  | cons hd tl ih =>
      obtain ⟨k, g⟩ := hd
      by_cases hk : k = n
      · subst hk
        simp [setField, lookupField, hnm]
      · simp [setField, lookupField, hk, ih]

theorem hasField_false_iff (fs : Schema) (n : String) :
    hasField fs n = false ↔ n ∉ fs.map Prod.fst := by
  induction fs with
  | nil => simp [hasField]
  | cons hd tl ih =>
      obtain ⟨m, g⟩ := hd
      by_cases h : m = n
      · subst h
        simp [hasField]
      · simp [hasField, h, ih, Ne.symm h]

theorem keys_setField (fs : Schema) (n : String) (f : FieldDef) :
    (setField fs n f).map Prod.fst =
      if hasField fs n then fs.map Prod.fst else fs.map Prod.fst ++ [n] := by
  induction fs with
  | nil => simp [setField, hasField]
  | cons hd tl ih =>
      obtain ⟨m, g⟩ := hd
      by_cases h : m = n
      · simp [setField, hasField, h]
      · simp only [setField, hasField, if_neg h, List.map_cons, ih]
        by_cases htl : hasField tl n = true <;> simp [htl]

theorem nodup_setField (fs : Schema) (n : String) (f : FieldDef)
    (h : (fs.map Prod.fst).Nodup) : ((setField fs n f).map Prod.fst).Nodup := by
  rw [keys_setField]
  by_cases hc : hasField fs n = true
  · simpa [hc] using h
  · have hn : n ∉ fs.map Prod.fst := (hasField_false_iff fs n).mp (by simpa using hc)
    simp only [Bool.not_eq_true] at hc
    rw [if_neg (by simp [hc])]
    refine List.Nodup.append h (List.nodup_singleton n) ?_
    intro a ha hb
    simp only [List.mem_singleton] at hb
    subst hb
    exact hn ha

theorem nodup_add_field (fs : Schema) (tab : Tab)
    (h : (fs.map Prod.fst).Nodup) : ((add_field fs tab).map Prod.fst).Nodup :=
  nodup_setField _ _ _ (nodup_setField _ _ _ h)

theorem nodup_syncFields (tabs : List Tab) (fs : Schema)
    (h : (fs.map Prod.fst).Nodup) : ((syncFields tabs fs).map Prod.fst).Nodup := by
  induction tabs generalizing fs with
  | nil => simpa [syncFields] using h
  | cons tab rest ih =>
      simp only [syncFields, List.foldl_cons]
      by_cases hc : hasField fs tab.fieldname = true
      · simpa [syncFields, hc] using ih fs h
      · simp only [Bool.not_eq_true] at hc
        simpa [syncFields, hc] using ih (add_field fs tab) (nodup_add_field fs tab h)

theorem syncFields_all_present (tabs : List Tab) (fs : Schema)
    (h : ∀ t ∈ tabs, hasField fs t.fieldname = true) : syncFields tabs fs = fs := by
  induction tabs with
  | nil => simp [syncFields]
  | cons tab rest ih =>
      have h1 := h tab (List.mem_cons_self tab rest)
      simpa [syncFields, h1] using ih fun t ht => h t (List.mem_cons_of_mem tab ht)

theorem cache_after_update (env : Env) (st : ModelState) :
    (_update_tab_fields env st).tab_modification_sequence = env.sequence := by
  by_cases h : env.sequence = st.tab_modification_sequence <;>
    simp [_update_tab_fields, _need_tab_update, h]

theorem update_noop_of_eq (env : Env) (st : ModelState)
    (h : env.sequence = st.tab_modification_sequence) :
    _update_tab_fields env st = st := by
  simp [_update_tab_fields, _need_tab_update, h]

/-! ### Page-ordering lemma for the view composer -/

theorem addPagesLoop_pages (tabs : List Tab) (fs : Schema) (v : View)
    (ef : List String) (lastIdx : Nat) (h : lastIdx + 1 = v.pages.length) :
    ((addPagesLoop tabs fs v ef lastIdx).2.1).pages = v.pages ++ tabs.map Tab.page := by
  induction tabs generalizing fs v ef lastIdx with
  | nil => simp [addPagesLoop]
  | cons tab rest ih =>
      simp only [addPagesLoop, add_invisible_extra_field]
      rw [ih _ _ _ _ (by simp [h])]
      simp [h, List.take_length, List.drop_length]

theorem addPagesLoop_schema_nodup (tabs : List Tab) (fs : Schema) (v : View)
    (ef : List String) (lastIdx : Nat) (h : (fs.map Prod.fst).Nodup) :
    (((addPagesLoop tabs fs v ef lastIdx).1).map Prod.fst).Nodup := by
  induction tabs generalizing fs v ef lastIdx with
  | nil => simpa [addPagesLoop] using h
  | cons tab rest ih =>
      simp only [addPagesLoop]
      exact ih _ _ _ _ (nodup_add_field fs tab h)

theorem add_tab_pages_pages (tabs : List Tab) (fs : Schema) (v : View)
    (h : v.pages ≠ []) :
    ((_add_tab_pages tabs fs v).2.1).pages = v.pages ++ tabs.map Tab.page := by
  have hne : v.pages.isEmpty = false := by
    cases hv : v.pages with
    | nil => exact absurd hv h
    | cons a l => simp
  have hlen : v.pages.length - 1 + 1 = v.pages.length := by
    have : v.pages.length ≠ 0 := by simpa using h
    omega
  by_cases hid : viewHasField v "id" = true
  · simp only [_add_tab_pages, hne, Bool.false_eq_true, if_false, hid, if_true]
    exact addPagesLoop_pages tabs fs v [] _ hlen
  · simp only [_add_tab_pages, hne, Bool.false_eq_true, if_false, hid, if_false,
      add_invisible_extra_field]
    exact addPagesLoop_pages tabs fs _ _ _ (by simpa using hlen)

/-! ### Concrete sample data used by witnesses and counterexamples -/

/-- Sample tab with declaration id 1. -/
def tabA : Tab :=
  ⟨⟨1, "A"⟩, "relation_tab_1", "relation_tab_1_visible", ⟨"A", ["relation_tab_1"]⟩⟩

/-- Sample tab with declaration id 2. -/
def tabB : Tab :=
  ⟨⟨2, "B"⟩, "relation_tab_2", "relation_tab_2_visible", ⟨"B", ["relation_tab_2"]⟩⟩

/-- Sample tab with declaration id 3. -/
def tabC : Tab :=
  ⟨⟨3, "C"⟩, "relation_tab_3", "relation_tab_3_visible", ⟨"C", ["relation_tab_3"]⟩⟩

/-- A form view with one pre-existing page that already shows the `id`
field. -/
def baseView : View := ⟨[⟨"General", ["id"]⟩], []⟩

/-- A form view without any notebook page. -/
def emptyView : View := ⟨[], [("id", false)]⟩

/-- A schema in which `tabA`'s relation field name is already bound (to a
descriptor different from the pair `add_field` would build). -/
def fsOld : Schema := [("relation_tab_1", FieldDef.boolean ⟨none⟩)]

/-- A sample `fields_view_get` super result. -/
def fvgBase : FVGResult := ⟨baseView, ["name"]⟩

/-! ### Claims -/

/-- C1 (counterexample): composition does overwrite a field already
present by name — `_add_tab_pages` calls `add_field` unconditionally and
`add_field` replaces existing bindings, so the pre-existing descriptor
bound to `relation_tab_1` is not left untouched. -/
theorem composition_overwrites_existing_field :
    hasField fsOld "relation_tab_1" = true
    ∧ lookupField (_add_tab_pages [tabA] fsOld baseView).1 "relation_tab_1"
        ≠ some (FieldDef.boolean ⟨none⟩) := by decide

/-- C1 (amended): synchronization (`_update_tab_fields`) leaves a field
pair whose relation field name is already present untouched, and — the
registry being keyed by name — both synchronization and composition keep
at most one field per name; composition, however, re-adds (replaces) each
declaration's pair unconditionally. -/
theorem sync_no_overwrite_and_unique_keys (env : Env) (st : ModelState) :
    ((∀ t ∈ env.tabs, hasField st.fields t.fieldname = true) →
      (_update_tab_fields env st).fields = st.fields)
    ∧ ((st.fields.map Prod.fst).Nodup →
      ((_update_tab_fields env st).fields.map Prod.fst).Nodup)
    ∧ (∀ (tabs : List Tab) (v : View), (st.fields.map Prod.fst).Nodup →
      (((_add_tab_pages tabs st.fields v).1).map Prod.fst).Nodup) := by
  refine ⟨?_, ?_, ?_⟩
  · intro h
    by_cases hs : env.sequence = st.tab_modification_sequence
    · simp [_update_tab_fields, _need_tab_update, hs]
    · simp [_update_tab_fields, _need_tab_update, hs, syncFields_all_present env.tabs st.fields h]
  · intro h
    by_cases hs : env.sequence = st.tab_modification_sequence
    · simpa [_update_tab_fields, _need_tab_update, hs] using h
    · simpa [_update_tab_fields, _need_tab_update, hs] using
        nodup_syncFields env.tabs st.fields h
  · intro tabs v h
    by_cases hv : v.pages.isEmpty = true
    · simpa [_add_tab_pages, hv] using h
    · simp only [_add_tab_pages, hv, if_false]
      exact addPagesLoop_schema_nodup tabs st.fields _ _ _ h

/-- Witness for C1 (amended) at concrete input. -/
theorem sync_no_overwrite_and_unique_keys_witness :
    (∀ t ∈ [tabA], hasField fsOld t.fieldname = true)
    ∧ (_update_tab_fields ⟨9, [tabA]⟩ ⟨fsOld, 0⟩).fields = fsOld
    ∧ (((_add_tab_pages [tabA] fsOld baseView).1).map Prod.fst).Nodup :=
  ⟨by decide,
    (sync_no_overwrite_and_unique_keys ⟨9, [tabA]⟩ ⟨fsOld, 0⟩).1 (by decide),
    (sync_no_overwrite_and_unique_keys ⟨9, [tabA]⟩ ⟨fsOld, 0⟩).2.2 [tabA] baseView (by decide)⟩

/-- C2: when the source sequence equals the cached value, reconciliation
returns the state unchanged (zero schema mutations, whatever tabs the
source now holds), and a second consecutive reconciliation with the same
environment never mutates anything. -/
theorem reconcile_idempotent_when_sequence_unchanged (env : Env) (st : ModelState) :
    (env.sequence = st.tab_modification_sequence → _update_tab_fields env st = st)
    ∧ _update_tab_fields env (_update_tab_fields env st) = _update_tab_fields env st :=
  ⟨update_noop_of_eq env st,
    update_noop_of_eq env (_update_tab_fields env st) (cache_after_update env st).symm⟩

/-- Witness for C2 at concrete input: cached value 3, source sequence 3,
a fresh tab present in the source's sequence. -/
theorem reconcile_idempotent_when_sequence_unchanged_witness :
    (Env.mk 3 [tabA]).sequence = (ModelState.mk [] 3).tab_modification_sequence
    ∧ _update_tab_fields ⟨3, [tabA]⟩ ⟨[], 3⟩ = ⟨[], 3⟩ :=
  ⟨rfl, (reconcile_idempotent_when_sequence_unchanged ⟨3, [tabA]⟩ ⟨[], 3⟩).1 rfl⟩

/-- C3 (counterexample): with cached value 0 and source sequence 5, a
declaration fetch that fails still leaves the cache at 5, not at its old
value 0 — the cache is committed inside `_need_tab_update`, before any
field pair is attached. -/
theorem cache_committed_before_fetch_failure :
    (updateTabFieldsE ⟨5, none⟩ ⟨[], 0⟩).2 = false
    ∧ (updateTabFieldsE ⟨5, none⟩ ⟨[], 0⟩).1.tab_modification_sequence = 5
    ∧ (updateTabFieldsE ⟨5, none⟩ ⟨[], 0⟩).1.tab_modification_sequence ≠ 0 := by decide

/-- C3 (amended): the cached revision value is set to the source's counter
during the staleness check, before declarations are fetched or field pairs
attached; a failing declaration fetch therefore propagates to the caller
with the cache already holding the new counter, not its old value. -/
theorem cache_set_during_staleness_check (env : EnvE) (st : ModelState) :
    (updateTabFieldsE env st).1.tab_modification_sequence = env.sequence
    ∧ (env.sequence ≠ st.tab_modification_sequence → env.tabsResult = none →
        (updateTabFieldsE env st).2 = false) := by
  constructor
  · by_cases h : env.sequence = st.tab_modification_sequence
    · cases ht : env.tabsResult <;> simp [updateTabFieldsE, _need_tab_update, h, ht]
    · cases ht : env.tabsResult <;> simp [updateTabFieldsE, _need_tab_update, h, ht]
  · intro h ht
    simp [updateTabFieldsE, _need_tab_update, h, ht]

/-- Witness for C3 (amended) at concrete input. -/
theorem cache_set_during_staleness_check_witness :
    (EnvE.mk 5 none).sequence ≠ (ModelState.mk [] 0).tab_modification_sequence
    ∧ (updateTabFieldsE ⟨5, none⟩ ⟨[], 0⟩).1.tab_modification_sequence = 5
    ∧ (updateTabFieldsE ⟨5, none⟩ ⟨[], 0⟩).2 = false :=
  ⟨by decide,
    (cache_set_during_staleness_check ⟨5, none⟩ ⟨[], 0⟩).1,
    (cache_set_during_staleness_check ⟨5, none⟩ ⟨[], 0⟩).2 (by decide) rfl⟩

/-- C4 (counterexample): the layout-fetch entry point does not call
reconciliation first — with cached value 0 and source sequence 5, a form
`fields_view_get` outside validation mode leaves the cache at 0, whereas
a call to `_update_tab_fields` would have set it to 5. -/
theorem fields_view_get_skips_reconcile :
    (fields_view_get ⟨5, [tabA]⟩ ⟨[], 0⟩ "form" false fvgBase).2.tab_modification_sequence = 0
    ∧ (_update_tab_fields ⟨5, [tabA]⟩ ⟨[], 0⟩).tab_modification_sequence = 5 := by decide

/-- C4 (amended): on a form request outside structural-validation mode the
layout-fetch entry point composes the layout without touching the revision
cache (it never calls reconciliation); the schema it commits is the one
produced by composition itself (which re-adds every declaration's pair),
and the returned field-metadata map is the super result's map extended
with every extra field name the composer registered. -/
theorem fields_view_get_merges_extra_fields (env : Env) (st : ModelState)
    (result : FVGResult) :
    (fields_view_get env st "form" false result).2.tab_modification_sequence
      = st.tab_modification_sequence
    ∧ (fields_view_get env st "form" false result).1.fieldsMeta
      = result.fieldsMeta ++ (_add_tab_pages env.tabs st.fields result.arch).2.2
    ∧ (fields_view_get env st "form" false result).2.fields
      = (_add_tab_pages env.tabs st.fields result.arch).1 := by
  refine ⟨?_, ?_, ?_⟩ <;> simp [fields_view_get]

/-- C5: on a base layout with at least one pre-existing page, composition
yields exactly the pre-existing pages followed by the declarations' pages
in source order, and reversing the declaration sequence reverses the
appended pages. -/
theorem compose_appends_pages_in_source_order (tabs : List Tab) (fs : Schema)
    (v : View) (h : v.pages ≠ []) :
    ((_add_tab_pages tabs fs v).2.1).pages = v.pages ++ tabs.map Tab.page
    ∧ ((_add_tab_pages tabs.reverse fs v).2.1).pages
      = v.pages ++ (tabs.map Tab.page).reverse := by
  refine ⟨add_tab_pages_pages tabs fs v h, ?_⟩
  rw [add_tab_pages_pages tabs.reverse fs v h, List.map_reverse]

/-- Witness for C5 at concrete input: three tabs A, B, C on a layout with
one pre-existing page. -/
theorem compose_appends_pages_in_source_order_witness :
    baseView.pages ≠ []
    ∧ ((_add_tab_pages [tabA, tabB, tabC] [] baseView).2.1).pages
      = baseView.pages ++ [tabA, tabB, tabC].map Tab.page
    ∧ ((_add_tab_pages [tabA, tabB, tabC].reverse [] baseView).2.1).pages
      = baseView.pages ++ ([tabA, tabB, tabC].map Tab.page).reverse :=
  ⟨by decide,
    (compose_appends_pages_in_source_order [tabA, tabB, tabC] [] baseView (by decide)).1,
    (compose_appends_pages_in_source_order [tabA, tabB, tabC] [] baseView (by decide)).2⟩

/-- C6: `add_field` registers, under the tab's relation field name, a
One2many descriptor to `res.partner.relation.all` filtered by
`tab_id = declaration id` with the `active_test` context flag disabled,
and, under the tab's visibility field name, a computed (not directly
writable) Boolean whose compute method carries the dependency set
`is_company, category_id`. -/
theorem add_field_builds_field_pair (fs : Schema) (tab : Tab)
    (h : tab.visible_fieldname ≠ tab.fieldname) :
    lookupField (add_field fs tab) tab.fieldname
      = some (FieldDef.one2many
          ⟨"res.partner.relation.all", "this_partner_id",
            "tab_id", tab.tab_record.id, false, tab.tab_record.name⟩)
    ∧ lookupField (add_field fs tab) tab.visible_fieldname
      = some (FieldDef.boolean ⟨some "_compute_tabs_visibility"⟩)
    ∧ (FieldDef.boolean ⟨some "_compute_tabs_visibility"⟩).directlyWritable = false
    ∧ tabs_visibility_depends = ["is_company", "category_id"] := by
  refine ⟨?_, ?_, rfl, rfl⟩
  · exact lookup_setField_self _ _ _
  · rw [add_field]
    rw [lookup_setField_other _ _ _ _ h]
    exact lookup_setField_self _ _ _

/-- Witness for C6 at concrete input. -/
theorem add_field_builds_field_pair_witness :
    tabA.visible_fieldname ≠ tabA.fieldname
    ∧ lookupField (add_field [] tabA) tabA.fieldname
      = some (FieldDef.one2many
          ⟨"res.partner.relation.all", "this_partner_id",
            "tab_id", tabA.tab_record.id, false, tabA.tab_record.name⟩)
    ∧ lookupField (add_field [] tabA) tabA.visible_fieldname
      = some (FieldDef.boolean ⟨some "_compute_tabs_visibility"⟩) :=
  ⟨by decide,
    (add_field_builds_field_pair [] tabA (by decide)).1,
    (add_field_builds_field_pair [] tabA (by decide)).2.1⟩

/-- C7: on a base layout containing no page, composition returns the
schema, the layout and the extra-fields list unchanged — no section, no
marker field, no schema mutation. -/
theorem compose_noop_without_pages (tabs : List Tab) (fs : Schema) (v : View)
    (h : v.pages = []) : _add_tab_pages tabs fs v = (fs, v, []) := by
  simp [_add_tab_pages, h]

/-- Witness for C7 at concrete input. -/
theorem compose_noop_without_pages_witness :
    emptyView.pages = []
    ∧ _add_tab_pages [tabA] fsOld emptyView = (fsOld, emptyView, []) :=
  ⟨rfl, compose_noop_without_pages [tabA] fsOld emptyView rfl⟩

/-- C8: a layout fetch in structural-validation mode (`check_view_ids`
set) skips composition entirely: the super result and the model state are
returned verbatim. -/
theorem fields_view_get_validation_mode_verbatim (env : Env) (st : ModelState)
    (view_type : String) (result : FVGResult) :
    fields_view_get env st view_type true result = (result, st) := by
  simp [fields_view_get]

/-- C9: `browse` reconciles before materialising — the recordset is
produced by the superclass implementation applied to the reconciled state,
and the state it runs against has its cache equal to the source's current
counter. -/
theorem browse_reconciles_before_materialising {α : Type}
    (superBrowse : ModelState → Option Nat → α) (env : Env) (st : ModelState)
    (arg : Option Nat) :
    browse superBrowse env st arg
      = (superBrowse (_update_tab_fields env st) arg, _update_tab_fields env st)
    ∧ (browse superBrowse env st arg).2.tab_modification_sequence = env.sequence :=
  ⟨rfl, cache_after_update env st⟩

/-- C10: the never-synchronized sentinel of the revision cache is the
concrete integer 0, so a source whose counter currently reads 0 is
indistinguishable from the never-synchronized state: reconciliation from
the initial cache attaches nothing, whatever tabs the source holds. -/
theorem sentinel_zero_cache :
    init_tab_modification_sequence = 0
    ∧ ∀ (tabs : List Tab) (fs : Schema),
        _update_tab_fields ⟨0, tabs⟩ ⟨fs, init_tab_modification_sequence⟩
          = ⟨fs, init_tab_modification_sequence⟩ :=
  ⟨rfl, fun tabs fs => update_noop_of_eq ⟨0, tabs⟩ ⟨fs, init_tab_modification_sequence⟩ rfl⟩

end PartnerTabs
